import Mathlib

/-!
Verification of the minio-simple-copier synchronization engine.

This file shallowly embeds the core of the repository:

* the per-object catalog stored in SQLite (`db` package: `FileEntry`,
  `InsertFileEntry`, `UpdateFileStatus`, `GetFileByPath`, `GetPendingFiles`);
* the reconciler (`sync.Service.UpdateSourceFileList`) that merges an
  observed source listing into the catalog;
* the copy scheduler (`sync.Service.SyncFiles` / `sync.Service.syncFile`);
* the import path (`sync.Service.ImportFileList`);
* the minio transport wrapper (`minio.MinioClient.withRetry`,
  `isRetryableError`, `ListFiles`, `CopyFile`);
* the local filesystem writer (`local.Storage.SaveFile`).

The SQLite store is modelled as an in-memory list of rows together with the
AUTOINCREMENT counter and a monotone clock standing for `time.Now()`; each
SQL statement of the Go code becomes a pure function on that state.  Database
statements never fail in the model (catalog-store I/O errors are outside the
claims checked here).  Network and filesystem effects are modelled by explicit
operation traces and by environments that prescribe the outcome of each
transport call.
-/

namespace MinioCopier

/-! ## Catalog data model (db package, src/unnamed/part_004) -/

/-- Go `db.FileStatus` constants. -/
inductive FileStatus where
  | pending
  | existsDest
  | notFound
  | copying
  | completed
  | error
  deriving DecidableEq, Repr

/-- Go `db.FileEntry`: one row of the `file_entries` table.  Times are
modelled as integers. -/
structure FileEntry where
  id : Nat
  projectName : String
  path : String
  size : Int
  etag : String
  lastModified : Int
  status : FileStatus
  errorMessage : String
  createdAt : Int
  updatedAt : Int
  deriving DecidableEq, Repr

/-- The SQLite database: the rows of `file_entries` in insertion order,
the AUTOINCREMENT counter, and a monotone clock standing for `time.Now()`. -/
structure DB where
  entries : List FileEntry
  nextId : Nat
  clock : Int
  deriving DecidableEq, Repr

/-- A catalog mutation performed by the engine: an `INSERT` issued by
`InsertFileEntry` or an `UPDATE` issued by `UpdateFileStatus`.  Used to state
how many rows a pass touches. -/
inductive DbMutation where
  | insertRow (e : FileEntry)
  | updateStatus (id : Nat) (st : FileStatus) (msg : String)
  deriving DecidableEq, Repr

/-- Go `db.GetFileByPath`: `SELECT ... WHERE project_name = ? AND path = ?
LIMIT 1`.  Rows are scanned in insertion order. -/
def dbGetFileByPath (db : DB) (projectName path : String) : Option FileEntry :=
  db.entries.find? (fun e => e.projectName == projectName && e.path == path)

/-- The caller-supplied fields of a row passed to `InsertFileEntry` (the Go
code fills `ID`, `CreatedAt`, `UpdatedAt` itself). -/
structure NewEntry where
  projectName : String
  path : String
  size : Int
  etag : String
  lastModified : Int
  status : FileStatus
  errorMessage : String
  deriving DecidableEq, Repr

/-- Go `db.InsertFileEntry`: inserts a new row with `created_at` and
`updated_at` set to `time.Now()` and the id from AUTOINCREMENT. -/
def dbInsertFileEntry (db : DB) (e : NewEntry) : DB × FileEntry :=
  let now := db.clock + 1
  let row : FileEntry :=
    ⟨db.nextId, e.projectName, e.path, e.size, e.etag, e.lastModified,
      e.status, e.errorMessage, now, now⟩
  (⟨db.entries ++ [row], db.nextId + 1, now⟩, row)

/-- Go `db.UpdateFileStatus`: `UPDATE file_entries SET status = ?,
error_message = ?, updated_at = ? WHERE id = ?`.  Note that this statement
writes only the status, error message and update time; it leaves `size`,
`etag` and `last_modified` as they are. -/
def dbUpdateFileStatus (db : DB) (id : Nat) (st : FileStatus) (msg : String) : DB :=
  let now := db.clock + 1
  ⟨db.entries.map (fun e =>
      if e.id == id then
        { e with status := st, errorMessage := msg, updatedAt := now }
      else e),
    db.nextId, now⟩

/-- Go `db.GetPendingFiles` with limit 0: `SELECT ... WHERE project_name = ?
AND status IN (pending, error) ORDER BY created_at ASC`.  Rows are stored in
insertion order and `created_at` is assigned from the monotone clock, so the
`ORDER BY created_at ASC` result coincides with a scan in insertion order. -/
def dbGetPendingFiles (db : DB) (projectName : String) : List FileEntry :=
  db.entries.filter (fun e =>
    e.projectName == projectName &&
      (e.status == FileStatus.pending || e.status == FileStatus.error))

/-- Status of the row with the given id, if present. -/
def statusOf (db : DB) (id : Nat) : Option FileStatus :=
  (db.entries.find? (fun e => e.id == id)).map (·.status)

/-- Error message of the row with the given id, if present. -/
def errorMessageOf (db : DB) (id : Nat) : Option String :=
  (db.entries.find? (fun e => e.id == id)).map (·.errorMessage)

/-! ## Source listing records -/

/-- Go `minio.FileInfo`: one record of the observed source listing. -/
structure FileInfo where
  path : String
  size : Int
  etag : String
  lastModified : Int
  deriving DecidableEq, Repr

/-! ## Reconciler (sync.Service.UpdateSourceFileList, src/sync/service.go) -/

/-- One step of the loop body of `UpdateSourceFileList` (src/sync/service.go
lines 100-124): look the observed path up; if absent insert a `pending` row;
if present with a different ETag call `UpdateFileStatus(id, pending, "")`;
otherwise do nothing. -/
def reconcileStep (projectName : String) (acc : DB × List DbMutation)
    (file : FileInfo) : DB × List DbMutation :=
  let (db, log) := acc
  match dbGetFileByPath db projectName file.path with
  | none =>
      let entry : NewEntry :=
        ⟨projectName, file.path, file.size, file.etag, file.lastModified,
          FileStatus.pending, ""⟩
      let (db2, row) := dbInsertFileEntry db entry
      (db2, log ++ [DbMutation.insertRow row])
  | some existing =>
      if existing.etag ≠ file.etag then
        (dbUpdateFileStatus db existing.id FileStatus.pending "",
          log ++ [DbMutation.updateStatus existing.id FileStatus.pending ""])
      else
        (db, log)

/-- Go `sync.Service.UpdateSourceFileList`: merge an observed listing into
the catalog, processing records in listing order, and record the catalog
mutations performed. -/
def updateSourceFileList (db : DB) (projectName : String)
    (files : List FileInfo) : DB × List DbMutation :=
  files.foldl (reconcileStep projectName) (db, [])

/-! ## Import path (sync.Service.ImportFileList, src/unnamed/part_006) -/

/-- Go `sync.MCListEntry`: one parsed line of an `mc ls --json` listing.
(Malformed JSON lines are skipped with a warning while scanning the file and
never reach the loop modelled here.) -/
structure MCListEntry where
  mcStatus : String
  mcType : String
  lastModified : Int
  size : Int
  key : String
  etag : String
  deriving DecidableEq, Repr

/-- The catalog path of an imported record: `path.Join(folderPath, key)`
when a source folder prefix is configured, the key itself otherwise
(src/unnamed/part_006 lines 335-339). -/
def importFilePath (folderPath key : String) : String :=
  if folderPath == "" then key else folderPath ++ "/" ++ key

/-- One iteration of the import loop (src/unnamed/part_006 lines 334-368):
if the path already has a catalog entry the record is skipped entirely,
otherwise a new `pending` row is inserted. -/
def importStep (projectName folderPath : String) (acc : DB × List DbMutation)
    (entry : MCListEntry) : DB × List DbMutation :=
  let (db, log) := acc
  let filePath := importFilePath folderPath entry.key
  match dbGetFileByPath db projectName filePath with
  | some _ => (db, log)
  | none =>
      let (db2, row) := dbInsertFileEntry db
        ⟨projectName, filePath, entry.size, entry.etag, entry.lastModified,
          FileStatus.pending, ""⟩
      (db2, log ++ [DbMutation.insertRow row])

/-- Go `sync.Service.ImportFileList` from the point where the listing has
been parsed: records whose type is not `file` are dropped, the rest are
processed in order by the import loop. -/
def importFileList (db : DB) (projectName folderPath : String)
    (entries : List MCListEntry) : DB × List DbMutation :=
  (entries.filter (fun e => e.mcType == "file")).foldl
    (importStep projectName folderPath) (db, [])

/-! ## Transport retry wrapper (minio package, src/unnamed/part_001) -/

/-- A Go `error` value as observed by `minio.isRetryableError`.  The three
Boolean fields record the outcomes of the three dynamic checks the Go code
performs on the value: whether it is a `net.Error` whose `Timeout()` is true,
whether it is a `*url.Error` that reports a timeout (directly or through its
wrapped `net.Error`), and whether it is a `*url.Error` wrapping
`context.DeadlineExceeded`. -/
structure GoError where
  netTimeout : Bool
  urlTimeout : Bool
  urlDeadlineExceeded : Bool
  msg : String
  deriving DecidableEq, Repr

/-- Go `minio.isRetryableError` on a non-nil error: true exactly when one of
the three checks in the source succeeds. -/
def isRetryableError (e : GoError) : Bool :=
  e.netTimeout || e.urlTimeout || e.urlDeadlineExceeded

/-- Go `maxRetries` constant (src/unnamed/part_001 line 18). -/
def maxRetries : Nat := 3

/-- The error built by `fmt.Errorf("failed after %d retries: %w", ...)` when
the retry budget is exhausted.  A `*fmt.wrapError` is neither a `net.Error`
nor a `*url.Error`, so all three classification checks fail on it. -/
def wrapRetryExhausted (last : Option GoError) : GoError :=
  ⟨false, false, false,
    "failed after 3 retries: " ++ (match last with | some e => e.msg | none => "")⟩

/-- Result of a `withRetry` call: the error returned to the caller (`none`
means success), how many times `fn` was invoked, and how many
`time.Sleep(retryInterval)` delays were taken between invocations. -/
structure RetryOutcome where
  result : Option GoError
  calls : Nat
  sleeps : Nat
  deriving DecidableEq, Repr

/-- The loop of Go `minio.MinioClient.withRetry` (src/unnamed/part_001 lines
81-99).  `fn i` is the outcome of the i-th invocation of the wrapped
operation (`none` = success).  The loop sleeps before every invocation except
the first, stops immediately on a non-retryable error, and after `maxRetries`
failed invocations returns the wrapped exhaustion error. -/
def withRetryAux (fn : Nat → Option GoError) :
    Nat → Nat → Option GoError → RetryOutcome
  | attempt, 0, lastErr =>
      ⟨some (wrapRetryExhausted lastErr), attempt, attempt - 1⟩
  | attempt, remaining + 1, _ =>
      match fn attempt with
      | none => ⟨none, attempt + 1, attempt⟩
      | some e =>
          if isRetryableError e then
            withRetryAux fn (attempt + 1) remaining (some e)
          else
            ⟨some e, attempt + 1, attempt⟩

/-- Go `minio.MinioClient.withRetry`. -/
def withRetry (fn : Nat → Option GoError) : RetryOutcome :=
  withRetryAux fn 0 maxRetries none

/-! ## Source listing enumeration (minio.MinioClient.ListFiles) -/

/-- One record delivered by the underlying minio-go `ListObjects` channel:
an object key with its metadata, or an error record (`err` set). -/
structure RawObject where
  key : String
  size : Int
  etag : String
  lastModified : Int
  err : Option String
  deriving DecidableEq, Repr

/-- Go `minio.MinioClient.ListFiles` (src/unnamed/part_001 lines 108-146):
the goroutine consumes the `ListObjects` channel in order, aborts the
enumeration when a record carries an error, and forwards every object record
to the caller as a `FileInfo`.  Returns the yielded records and the error, if
any, delivered on the error channel.  (The whole enumeration is wrapped in
`withRetry`; the retry wrapper restarts the enumeration and is independent of
which records a single pass yields.) -/
def listFiles : List RawObject → List FileInfo × Option String
  | [] => ([], none)
  | o :: rest =>
    match o.err with
    | some e => ([], some ("error listing objects: " ++ e))
    | none =>
        (⟨o.key, o.size, o.etag, o.lastModified⟩ :: (listFiles rest).1,
          (listFiles rest).2)

/-! ## Remote-to-remote copy (minio.MinioClient.CopyFile) -/

/-- The two transfer paths of `CopyFile`. -/
inductive CopyMethod where
  | composeServerSide
  | putStream
  deriving DecidableEq, Repr

/-- Transport calls made by one attempt of `CopyFile`. -/
inductive MinioOp where
  | getObject (path : String)
  | statObject (path : String)
  | composeObject (path : String)
  | putObject (path : String)
  deriving DecidableEq, Repr

/-- The size threshold of `CopyFile` (src/unnamed/part_001 line 164):
`64*1024*1024` bytes. -/
def copyThreshold : Int := 64 * 1024 * 1024

/-- The branch taken by Go `minio.MinioClient.CopyFile` for an object whose
stat-reported size is `size`: `ComposeObject` when `size > 64*1024*1024`,
otherwise a regular `PutObject` upload (src/unnamed/part_001 lines 163-189). -/
def copyFileMethod (size : Int) : CopyMethod :=
  if size > copyThreshold then CopyMethod.composeServerSide
  else CopyMethod.putStream

/-- The transport calls of one `CopyFile` attempt: get the source object,
stat it, then transfer by the size-selected method. -/
def copyFileAttempt (size : Int) (path : String) : List MinioOp :=
  [MinioOp.getObject path, MinioOp.statObject path] ++
    (match copyFileMethod size with
     | CopyMethod.composeServerSide => [MinioOp.composeObject path]
     | CopyMethod.putStream => [MinioOp.putObject path])

/-! ## Local filesystem writer (local.Storage.SaveFile, src/local/storage.go) -/

/-- Filesystem operations the local writer could perform.  The `rename`,
`remove` and `syncData` constructors exist so that the atomic-write claim can
be stated about the trace; `SaveFile` as written never emits them. -/
inductive FsOp where
  | mkdirAll (dir : String)
  | create (path : String)
  | copyData (path : String)
  | rename (src dst : String)
  | remove (path : String)
  | syncData (path : String)
  deriving DecidableEq, Repr

/-- Go `filepath.Join(basePath, sourcePath)` for the clean slash-separated
paths used here.  (`filepath.Join` additionally cleans redundant separators
and dot segments, which never arise in these claims.) -/
def joinPath (basePath sourcePath : String) : String :=
  basePath ++ "/" ++ sourcePath

/-- Characters of a path up to (excluding) its last separator. -/
def dirChars : List Char → List Char
  | [] => []
  | c :: rest => if rest.contains '/' then c :: dirChars rest else []

/-- Go `filepath.Dir`: the path up to the last separator. -/
def dirOf (p : String) : String :=
  ⟨dirChars p.data⟩

/-- Outcomes of the three fallible filesystem calls inside `SaveFile`:
`os.MkdirAll`, `os.Create` and `io.Copy`.  `none` means the call succeeds. -/
structure FsEnv where
  mkdirErr : Option String
  createErr : Option String
  copyErr : Option String
  deriving DecidableEq, Repr

/-- Go `local.Storage.SaveFile` (src/local/storage.go lines 28-50): join the
base path with the source path, create the parent directories, `os.Create`
the destination file at its final path, and `io.Copy` the reader into it.
Returns the filesystem operations attempted and the error, if any. -/
def saveFile (env : FsEnv) (basePath sourcePath : String) :
    List FsOp × Option String :=
  let destPath := joinPath basePath sourcePath
  match env.mkdirErr with
  | some e =>
      ([FsOp.mkdirAll (dirOf destPath)],
        some ("failed to create directories: " ++ e))
  | none =>
    match env.createErr with
    | some e =>
        ([FsOp.mkdirAll (dirOf destPath), FsOp.create destPath],
          some ("failed to create file: " ++ e))
    | none =>
      match env.copyErr with
      | some e =>
          ([FsOp.mkdirAll (dirOf destPath), FsOp.create destPath,
              FsOp.copyData destPath],
            some ("failed to copy data: " ++ e))
      | none =>
          ([FsOp.mkdirAll (dirOf destPath), FsOp.create destPath,
              FsOp.copyData destPath],
            none)

/-- Is the operation a rename? -/
def FsOp.isRename : FsOp → Bool
  | FsOp.rename _ _ => true
  | _ => false

/-- Is the operation a file removal? -/
def FsOp.isRemove : FsOp → Bool
  | FsOp.remove _ => true
  | _ => false

/-! ## Copy scheduler (sync.Service.SyncFiles / syncFile, src/sync/service.go) -/

/-- Go `config.DestinationType`. -/
inductive DestType where
  | minio
  | localFs
  deriving DecidableEq, Repr

/-- Transport calls recorded during a scheduler run. -/
inductive TransportOp where
  | statDest (path : String)
  | localExistsCheck (path : String)
  | getSource (path : String)
  | copyToDestMinio (path : String)
  | saveToLocal (path : String)
  deriving DecidableEq, Repr

/-- The object path a transport call refers to. -/
def TransportOp.opPath : TransportOp → String
  | TransportOp.statDest p => p
  | TransportOp.localExistsCheck p => p
  | TransportOp.getSource p => p
  | TransportOp.copyToDestMinio p => p
  | TransportOp.saveToLocal p => p

/-- Environment fixing the outcome of every transport call of a run.
`destStatOk p` is whether `StatObject` on the destination succeeds for `p`
(the Go code treats any stat error as "does not exist");
`localExistsResult p` is the result of `local.Storage.FileExists`;
`getObjectErr p` is the error, if any, of `GetObject` on the source; and
`copyErr p` is the error, if any, of the copy itself (`CopyFile` to a minio
destination or `SaveFile` to a local one). -/
structure SyncEnv where
  destStatOk : String → Bool
  localExistsResult : String → Except String Bool
  getObjectErr : String → Option String
  copyErr : String → Option String

/-- Go `sync.Service.syncFile` (src/sync/service.go lines 193-240): set the
row to `copying`, probe the destination, and either record `exists`, or
fetch the source object and copy it, recording `completed`; any failure is
returned to the caller (who records the `error` status).  Returns the
updated catalog, the transport calls made, and the error, if any. -/
def syncFile (env : SyncEnv) (dt : DestType) (db : DB) (file : FileEntry) :
    DB × List TransportOp × Option String :=
  let db1 := dbUpdateFileStatus db file.id FileStatus.copying ""
  let probeOp := match dt with
    | DestType.minio => TransportOp.statDest file.path
    | DestType.localFs => TransportOp.localExistsCheck file.path
  let probe : Except String Bool := match dt with
    | DestType.minio => Except.ok (env.destStatOk file.path)
    | DestType.localFs => env.localExistsResult file.path
  match probe with
  | Except.error e =>
      (db1, [probeOp], some ("failed to check file existence: " ++ e))
  | Except.ok true =>
      (dbUpdateFileStatus db1 file.id FileStatus.existsDest "", [probeOp], none)
  | Except.ok false =>
    match env.getObjectErr file.path with
    | some e =>
        (db1, [probeOp, TransportOp.getSource file.path],
          some ("failed to get source object: " ++ e))
    | none =>
      let copyOp := match dt with
        | DestType.minio => TransportOp.copyToDestMinio file.path
        | DestType.localFs => TransportOp.saveToLocal file.path
      match env.copyErr file.path with
      | some e =>
          (db1, [probeOp, TransportOp.getSource file.path, copyOp],
            some ("failed to copy file: " ++ e))
      | none =>
          (dbUpdateFileStatus db1 file.id FileStatus.completed "",
            [probeOp, TransportOp.getSource file.path, copyOp], none)

/-- Processing of one entry inside `SyncFiles` (src/sync/service.go lines
150-166): run `syncFile`; on failure set the row to `error` with the
failure's message and report `failed to sync file ...` to the error channel
(of which the caller receives the first). -/
def syncFilesStep (env : SyncEnv) (dt : DestType)
    (acc : DB × List TransportOp × Option String) (file : FileEntry) :
    DB × List TransportOp × Option String :=
  let (db, trace, firstErr) := acc
  let (db2, ops, res) := syncFile env dt db file
  match res with
  | none => (db2, trace ++ ops, firstErr)
  | some msg =>
      (dbUpdateFileStatus db2 file.id FileStatus.error msg,
        trace ++ ops,
        match firstErr with
        | some e => some e
        | none => some ("failed to sync file " ++ file.path ++ ": " ++ msg))

/-- Go `sync.Service.SyncFiles` (src/sync/service.go lines 128-191): fetch
all `pending`/`error` entries for the project and return immediately when
there are none; otherwise process every entry and return the first recorded
failure, if any.  Entries are distributed over a worker pool; each entry is
handed to exactly one worker and its processing is the sequential
`syncFile`-then-record-error step above, so the run is modelled as a fold of
that step over the fetched entries. -/
def syncFiles (env : SyncEnv) (dt : DestType) (db : DB)
    (projectName : String) : DB × List TransportOp × Option String :=
  let files := dbGetPendingFiles db projectName
  if files.isEmpty then (db, [], none)
  else files.foldl (syncFilesStep env dt) (db, [], none)

/-- The outcome of processing one path, as determined by the transport
environment alone. -/
inductive RunOutcome where
  | existsDest
  | completed
  | failed (msg : String)
  deriving DecidableEq, Repr

/-- The outcome `syncFile` reaches for a path under the given environment. -/
def pathOutcome (env : SyncEnv) (dt : DestType) (path : String) : RunOutcome :=
  let probe : Except String Bool := match dt with
    | DestType.minio => Except.ok (env.destStatOk path)
    | DestType.localFs => env.localExistsResult path
  match probe with
  | Except.error e => RunOutcome.failed ("failed to check file existence: " ++ e)
  | Except.ok true => RunOutcome.existsDest
  | Except.ok false =>
    match env.getObjectErr path with
    | some e => RunOutcome.failed ("failed to get source object: " ++ e)
    | none =>
      match env.copyErr path with
      | some e => RunOutcome.failed ("failed to copy file: " ++ e)
      | none => RunOutcome.completed

/-- The catalog status in which an outcome leaves the entry. -/
def outcomeStatus : RunOutcome → FileStatus
  | RunOutcome.existsDest => FileStatus.existsDest
  | RunOutcome.completed => FileStatus.completed
  | RunOutcome.failed _ => FileStatus.error

/-- The error message an outcome leaves on the entry. -/
def outcomeMessage : RunOutcome → String
  | RunOutcome.failed m => m
  | _ => ""

/-- Whether an outcome is a failure. -/
def RunOutcome.isFailed : RunOutcome → Bool
  | RunOutcome.failed _ => true
  | _ => false

/-- The transport calls `syncFile` makes for a path (they do not depend on
the catalog). -/
def syncOps (env : SyncEnv) (dt : DestType) (path : String) : List TransportOp :=
  let probeOp := match dt with
    | DestType.minio => TransportOp.statDest path
    | DestType.localFs => TransportOp.localExistsCheck path
  let probe : Except String Bool := match dt with
    | DestType.minio => Except.ok (env.destStatOk path)
    | DestType.localFs => env.localExistsResult path
  match probe with
  | Except.error _ => [probeOp]
  | Except.ok true => [probeOp]
  | Except.ok false =>
    match env.getObjectErr path with
    | some _ => [probeOp, TransportOp.getSource path]
    | none =>
      let copyOp := match dt with
        | DestType.minio => TransportOp.copyToDestMinio path
        | DestType.localFs => TransportOp.saveToLocal path
      [probeOp, TransportOp.getSource path, copyOp]

/-- The destination probe reports the object as already present. -/
def probeSaysPresent (env : SyncEnv) (dt : DestType) (path : String) : Prop :=
  match dt with
  | DestType.minio => env.destStatOk path = true
  | DestType.localFs => env.localExistsResult path = Except.ok true

/-! ## Concrete catalogs for the reconciler claims -/

/-- A catalog holding a single `completed` row for `(p, a)` whose stored
fingerprint is `e1`. -/
def changedDb : DB :=
  ⟨[⟨1, "p", "a", 1, "e1", 0, FileStatus.completed, "", 0, 0⟩], 2, 0⟩

/-- A listing that re-observes path `a` with fingerprint `e2`, size 2 and
modification time 5. -/
def changedListing : List FileInfo := [⟨"a", 2, "e2", 5⟩]

/-! ## Concrete scheduler inputs for the witnesses -/

/-- A catalog with three pending entries `a`, `b`, `c` for project `p`. -/
def pendingDb : DB :=
  ⟨[⟨1, "p", "a", 10, "e1", 0, FileStatus.pending, "", 1, 1⟩,
    ⟨2, "p", "b", 20, "e2", 0, FileStatus.pending, "", 2, 2⟩,
    ⟨3, "p", "c", 30, "e3", 0, FileStatus.pending, "", 3, 3⟩], 4, 3⟩

/-- A transport environment in which the destination already holds `b`, the
copy of `c` fails with a permanent error, and everything else succeeds. -/
def envOneFailure : SyncEnv :=
  ⟨fun p => p == "b",
    fun _ => Except.ok false,
    fun _ => none,
    fun p => if p == "c" then some "connection reset" else none⟩

/-- A catalog for project `p` in which every entry is already `completed` or
`existsDest`: nothing is pending and nothing is in error. -/
def allDoneDb : DB :=
  ⟨[⟨1, "p", "a", 10, "e1", 0, FileStatus.completed, "", 1, 4⟩,
    ⟨2, "p", "b", 20, "e2", 0, FileStatus.existsDest, "", 2, 5⟩], 3, 5⟩

/-- A catalog already holding `docs/a.txt` as `completed` with size 10 and
fingerprint `e1`. -/
def importDb : DB :=
  ⟨[⟨1, "p", "docs/a.txt", 10, "e1", 0, FileStatus.completed, "", 1, 1⟩], 2, 1⟩

/-- An imported listing whose first record collides with the existing entry
`docs/a.txt` but reports a different size (99) and fingerprint (`CHANGED`),
plus a genuinely new file and a non-file (folder) record. -/
def importEntries : List MCListEntry :=
  [⟨"success", "file", 7, 99, "a.txt", "CHANGED"⟩,
    ⟨"success", "file", 8, 20, "b.txt", "e2"⟩,
    ⟨"success", "folder", 0, 0, "sub/", "d0"⟩]

end MinioCopier

namespace MinioCopier

/-- C1: re-observing a catalogued path with a changed fingerprint resets the
row to `pending` and clears the error message, but — contrary to the claim —
leaves the stored size, fingerprint and source-modified time at their old
values: `UpdateFileStatus` writes only `status`, `error_message` and
`updated_at`, so the observed size 2, fingerprint `e2` and time 5 are never
persisted. -/
theorem reconcile_change_keeps_stale_metadata :
    (dbGetFileByPath (updateSourceFileList changedDb "p" changedListing).1 "p" "a" =
      some ⟨1, "p", "a", 1, "e1", 0, FileStatus.pending, "", 0, 1⟩) ∧
    ("e1" : String) ≠ "e2" ∧ (1 : Int) ≠ 2 ∧ (0 : Int) ≠ 5 := by
  refine ⟨rfl, by decide, by decide, by decide⟩

/-- C2: reconciliation is not idempotent on this catalog.  Because the first
pass left the stale fingerprint `e1` in the row, a second pass over the
identical listing performs another catalog mutation instead of zero. -/
theorem reconcile_second_run_mutates :
    (updateSourceFileList
        (updateSourceFileList changedDb "p" changedListing).1
        "p" changedListing).2 =
      [DbMutation.updateStatus 1 FileStatus.pending ""] := by
  rfl

/-- C7: a non-retryable (permanent) error is returned to the caller after a
single invocation with no delay; and when all `maxRetries = 3` invocations
fail with retryable (transient) errors, the wrapped call is invoked exactly 3
times with a delay between consecutive invocations, and the exhaustion error
handed to the caller is itself classified non-retryable (permanent). -/
theorem withRetry_classification (fn : Nat → Option GoError) :
    (∀ e, fn 0 = some e → isRetryableError e = false →
      withRetry fn = ⟨some e, 1, 0⟩) ∧
    (∀ e0 e1 e2, fn 0 = some e0 → fn 1 = some e1 → fn 2 = some e2 →
      isRetryableError e0 = true → isRetryableError e1 = true →
      isRetryableError e2 = true →
      withRetry fn = ⟨some (wrapRetryExhausted (some e2)), 3, 2⟩ ∧
        isRetryableError (wrapRetryExhausted (some e2)) = false) := by
  constructor
  · intro e h0 hperm
    simp [withRetry, maxRetries, withRetryAux, h0, hperm]
  · intro e0 e1 e2 h0 h1 h2 t0 t1 t2
    refine ⟨?_, rfl⟩
    simp [withRetry, maxRetries, withRetryAux, h0, h1, h2, t0, t1, t2]

/-- Witness for `withRetry_classification`: a permanent auth-style error is
surfaced after one call, and a run of three timeout-style errors exhausts the
budget in exactly 3 calls and 2 delays. -/
theorem withRetry_classification_witness :
    withRetry (fun _ => some ⟨false, false, false, "auth"⟩) =
      ⟨some ⟨false, false, false, "auth"⟩, 1, 0⟩ ∧
    (withRetry (fun _ => some ⟨true, false, false, "timeout"⟩) =
      ⟨some (wrapRetryExhausted (some ⟨true, false, false, "timeout"⟩)), 3, 2⟩ ∧
      isRetryableError
        (wrapRetryExhausted (some ⟨true, false, false, "timeout"⟩)) = false) :=
  ⟨(withRetry_classification _).1 _ rfl rfl,
    (withRetry_classification _).2 _ _ _ rfl rfl rfl rfl rfl rfl⟩

/-- C6 counterexample: a pseudo-directory marker object (key `docs/`, ending
in the path separator) is yielded to the caller unchanged — the enumeration
performs no filtering, contrary to the claim that no yielded record has a
path ending in the separator. -/
theorem listFiles_yields_directory_marker :
    (listFiles [⟨"docs/", 0, "d1", 0, none⟩]).1 = [⟨"docs/", 0, "d1", 0⟩] ∧
    "docs/" = "docs" ++ "/" :=
  ⟨rfl, rfl⟩

/-- C6 amended: the enumeration yields every object record of the underlying
listing, in order and unchanged — including pseudo-directory markers whose
path ends in the separator; no record is filtered out. -/
theorem listFiles_yields_every_record (objs : List RawObject)
    (h : ∀ o ∈ objs, o.err = none) :
    (listFiles objs).1 =
      objs.map (fun o => ⟨o.key, o.size, o.etag, o.lastModified⟩) := by
  induction objs with
  | nil => rfl
  | cons o rest ih =>
      have ho : o.err = none := h o (by simp)
      simp [listFiles, ho, ih (fun x hx => h x (List.mem_cons_of_mem _ hx))]

/-- Witness for `listFiles_yields_every_record` on a listing containing a
directory marker and a regular object. -/
theorem listFiles_yields_every_record_witness :
    (listFiles [⟨"docs/", 0, "d1", 0, none⟩, ⟨"docs/x.txt", 3, "e9", 1, none⟩]).1 =
      ([⟨"docs/", 0, "d1", 0, none⟩, ⟨"docs/x.txt", 3, "e9", 1, none⟩] :
          List RawObject).map
        (fun o => ⟨o.key, o.size, o.etag, o.lastModified⟩) :=
  listFiles_yields_every_record _ (by intro o ho; simp at ho; rcases ho with h | h <;> simp [h])

/-- C5 counterexample: an object of size exactly `64*1024*1024` (at the
64 MiB threshold) is copied with the regular streamed upload, not the
server-side composed path — the source uses a strict `>` comparison, so the
claimed `size >= threshold` boundary is wrong at equality. -/
theorem copyFile_at_threshold_streams :
    copyFileMethod (64 * 1024 * 1024) = CopyMethod.putStream ∧
    (64 * 1024 * 1024 : Int) ≥ copyThreshold := by
  constructor
  · rfl
  · exact le_refl _

/-- C5 amended: an object strictly larger than 64 MiB is copied with the
server-side composed path, and an object of size at most 64 MiB with a
direct streamed upload. -/
theorem copyFile_method_split (size : Int) (path : String) :
    (size > copyThreshold →
      copyFileAttempt size path =
        [MinioOp.getObject path, MinioOp.statObject path,
          MinioOp.composeObject path]) ∧
    (size ≤ copyThreshold →
      copyFileAttempt size path =
        [MinioOp.getObject path, MinioOp.statObject path,
          MinioOp.putObject path]) := by
  constructor
  · intro h
    simp [copyFileAttempt, copyFileMethod, h]
  · intro h
    simp [copyFileAttempt, copyFileMethod, not_lt.mpr h]

/-- Witness for `copyFile_method_split` just above and just at the
threshold. -/
theorem copyFile_method_split_witness :
    copyFileAttempt (copyThreshold + 1) "a" =
      [MinioOp.getObject "a", MinioOp.statObject "a", MinioOp.composeObject "a"] ∧
    copyFileAttempt copyThreshold "a" =
      [MinioOp.getObject "a", MinioOp.statObject "a", MinioOp.putObject "a"] :=
  ⟨(copyFile_method_split _ _).1 (by norm_num),
    (copyFile_method_split _ _).2 (le_refl _)⟩

/-- C4 counterexample: writing object `x/y.bin` under base `dest`, the bytes
are created and copied directly at the final path `dest/x/y.bin`; the trace
contains no rename at all, and when the copy fails midway nothing is removed
— contrary to the claimed temp-name/flush/rename pattern with cleanup. -/
theorem saveFile_no_temp_rename :
    (saveFile ⟨none, none, none⟩ "dest" "x/y.bin").1 =
      [FsOp.mkdirAll "dest/x", FsOp.create "dest/x/y.bin",
        FsOp.copyData "dest/x/y.bin"] ∧
    joinPath "dest" "x/y.bin" = "dest/x/y.bin" ∧
    ((saveFile ⟨none, none, none⟩ "dest" "x/y.bin").1.filter FsOp.isRename = [] ∧
      (saveFile ⟨none, none, some "reset"⟩ "dest" "x/y.bin").1.filter
        FsOp.isRemove = []) := by
  refine ⟨rfl, rfl, rfl, rfl⟩

/-- C4 amended: `SaveFile` creates the parent directories and then writes the
byte stream directly at the final destination path.  No temporary name,
rename or removal is ever performed, so a mid-write failure leaves the
partially written file at the final path. -/
theorem saveFile_direct_write (env : FsEnv) (basePath sourcePath : String) :
    (saveFile env basePath sourcePath).1.filter FsOp.isRename = [] ∧
    (saveFile env basePath sourcePath).1.filter FsOp.isRemove = [] ∧
    (∀ p, FsOp.create p ∈ (saveFile env basePath sourcePath).1 →
      p = joinPath basePath sourcePath) ∧
    (env.mkdirErr = none → env.createErr = none →
      FsOp.create (joinPath basePath sourcePath) ∈
        (saveFile env basePath sourcePath).1) := by
  rcases env with ⟨mk, cr, cp⟩
  cases mk <;> cases cr <;> cases cp <;>
    simp [saveFile, FsOp.isRename, FsOp.isRemove]

/-- Witness for `saveFile_direct_write`: a mid-copy network reset leaves the
truncated file in place at the final path. -/
theorem saveFile_direct_write_witness :
    (saveFile ⟨none, none, some "reset"⟩ "dest" "a.bin").1.filter
        FsOp.isRename = [] ∧
    (saveFile ⟨none, none, some "reset"⟩ "dest" "a.bin").1.filter
        FsOp.isRemove = [] ∧
    (∀ p, FsOp.create p ∈ (saveFile ⟨none, none, some "reset"⟩ "dest" "a.bin").1 →
      p = joinPath "dest" "a.bin") ∧
    (FsOp.create (joinPath "dest" "a.bin") ∈
      (saveFile ⟨none, none, some "reset"⟩ "dest" "a.bin").1) :=
  let h := saveFile_direct_write ⟨none, none, some "reset"⟩ "dest" "a.bin"
  ⟨h.1, h.2.1, h.2.2.1, h.2.2.2 rfl rfl⟩

/-! ## Catalog row lemmas -/

/-- `UpdateFileStatus` rewrites the status of the addressed row and leaves
every other row's status unchanged. -/
theorem statusOf_dbUpdateFileStatus (db : DB) (i : Nat) (st : FileStatus)
    (m : String) (j : Nat) :
    statusOf (dbUpdateFileStatus db i st m) j =
      if j = i then (statusOf db j).map (fun _ => st) else statusOf db j := by
  unfold statusOf dbUpdateFileStatus
  rw [List.find?_map]
  have hpred : ((fun e : FileEntry => e.id == j) ∘
      (fun e => if e.id == i then
        { e with status := st, errorMessage := m, updatedAt := db.clock + 1 }
      else e)) = fun e : FileEntry => e.id == j := by
    funext e
    by_cases h : e.id == i <;> simp [Function.comp, h]
  rw [hpred]
  cases h : db.entries.find? (fun e => e.id == j) with
  | none => simp
  | some e =>
      have he := List.find?_some h
      have hej : e.id = j := by simpa using he
      by_cases hji : j = i
      · subst hji
        simp [hej]
      · simp [hej, hji]

/-- `UpdateFileStatus` rewrites the error message of the addressed row and
leaves every other row's message unchanged. -/
theorem errorMessageOf_dbUpdateFileStatus (db : DB) (i : Nat) (st : FileStatus)
    (m : String) (j : Nat) :
    errorMessageOf (dbUpdateFileStatus db i st m) j =
      if j = i then (errorMessageOf db j).map (fun _ => m)
      else errorMessageOf db j := by
  unfold errorMessageOf dbUpdateFileStatus
  rw [List.find?_map]
  have hpred : ((fun e : FileEntry => e.id == j) ∘
      (fun e => if e.id == i then
        { e with status := st, errorMessage := m, updatedAt := db.clock + 1 }
      else e)) = fun e : FileEntry => e.id == j := by
    funext e
    by_cases h : e.id == i <;> simp [Function.comp, h]
  rw [hpred]
  cases h : db.entries.find? (fun e => e.id == j) with
  | none => simp
  | some e =>
      have he := List.find?_some h
      have hej : e.id = j := by simpa using he
      by_cases hji : j = i
      · subst hji
        simp [hej]
      · simp [hej, hji]

/-- A row present in the catalog is found by its id. -/
theorem statusOf_isSome_of_mem (db : DB) (e : FileEntry) (h : e ∈ db.entries) :
    (statusOf db e.id).isSome := by
  unfold statusOf
  rw [Option.isSome_map']
  exact List.find?_isSome.mpr ⟨e, h, by simp⟩

/-! ## syncFile characterization -/

/-- `syncFile` factored by the outcome the environment determines for the
entry's path: the catalog updates performed, the transport calls made and
the returned error are each a function of that outcome. -/
theorem syncFile_eq (env : SyncEnv) (dt : DestType) (db : DB)
    (file : FileEntry) :
    syncFile env dt db file =
      ((match pathOutcome env dt file.path with
        | RunOutcome.existsDest =>
            dbUpdateFileStatus (dbUpdateFileStatus db file.id FileStatus.copying "")
              file.id FileStatus.existsDest ""
        | RunOutcome.completed =>
            dbUpdateFileStatus (dbUpdateFileStatus db file.id FileStatus.copying "")
              file.id FileStatus.completed ""
        | RunOutcome.failed _ =>
            dbUpdateFileStatus db file.id FileStatus.copying ""),
        syncOps env dt file.path,
        match pathOutcome env dt file.path with
        | RunOutcome.failed m => some m
        | _ => none) := by
  cases dt with
  | minio =>
      cases hs : env.destStatOk file.path with
      | true => simp [syncFile, pathOutcome, syncOps, hs]
      | false =>
          cases hg : env.getObjectErr file.path with
          | none =>
              cases hc : env.copyErr file.path with
              | none => simp [syncFile, pathOutcome, syncOps, hs, hg, hc]
              | some e => simp [syncFile, pathOutcome, syncOps, hs, hg, hc]
          | some e => simp [syncFile, pathOutcome, syncOps, hs, hg]
  | localFs =>
      cases hl : env.localExistsResult file.path with
      | error e => simp [syncFile, pathOutcome, syncOps, hl]
      | ok b =>
          cases b with
          | true => simp [syncFile, pathOutcome, syncOps, hl]
          | false =>
              cases hg : env.getObjectErr file.path with
              | none =>
                  cases hc : env.copyErr file.path with
                  | none => simp [syncFile, pathOutcome, syncOps, hl, hg, hc]
                  | some e => simp [syncFile, pathOutcome, syncOps, hl, hg, hc]
              | some e => simp [syncFile, pathOutcome, syncOps, hl, hg]

/-! ## Per-entry step lemmas -/

/-- The step for one entry does not touch any other row. -/
theorem syncFilesStep_frame (env : SyncEnv) (dt : DestType) (db : DB)
    (tr : List TransportOp) (fe : Option String) (file : FileEntry) (j : Nat)
    (hj : j ≠ file.id) :
    statusOf (syncFilesStep env dt (db, tr, fe) file).1 j = statusOf db j ∧
    errorMessageOf (syncFilesStep env dt (db, tr, fe) file).1 j =
      errorMessageOf db j := by
  unfold syncFilesStep
  simp only [syncFile_eq]
  cases ho : pathOutcome env dt file.path <;>
    simp [ho, statusOf_dbUpdateFileStatus, errorMessageOf_dbUpdateFileStatus, hj]

/-- The step for one entry leaves that entry in the status and with the
message determined by its outcome. -/
theorem syncFilesStep_self (env : SyncEnv) (dt : DestType) (db : DB)
    (tr : List TransportOp) (fe : Option String) (file : FileEntry)
    (hsome : (statusOf db file.id).isSome) :
    statusOf (syncFilesStep env dt (db, tr, fe) file).1 file.id =
      some (outcomeStatus (pathOutcome env dt file.path)) ∧
    errorMessageOf (syncFilesStep env dt (db, tr, fe) file).1 file.id =
      some (outcomeMessage (pathOutcome env dt file.path)) := by
  obtain ⟨s, hs⟩ := Option.isSome_iff_exists.mp hsome
  have hsome2 : (errorMessageOf db file.id).isSome := by
    unfold statusOf at hsome
    unfold errorMessageOf
    rw [Option.isSome_map'] at hsome ⊢
    exact hsome
  obtain ⟨w, hw⟩ := Option.isSome_iff_exists.mp hsome2
  unfold syncFilesStep
  simp only [syncFile_eq]
  cases ho : pathOutcome env dt file.path <;>
    simp [ho, statusOf_dbUpdateFileStatus, errorMessageOf_dbUpdateFileStatus,
      outcomeStatus, outcomeMessage, hs, hw]

/-- The step preserves the presence of every row. -/
theorem syncFilesStep_isSome (env : SyncEnv) (dt : DestType) (db : DB)
    (tr : List TransportOp) (fe : Option String) (file : FileEntry) (j : Nat)
    (hsome : (statusOf db j).isSome) :
    (statusOf (syncFilesStep env dt (db, tr, fe) file).1 j).isSome := by
  unfold syncFilesStep
  simp only [syncFile_eq]
  cases ho : pathOutcome env dt file.path <;>
    by_cases hj : j = file.id <;>
      simp_all [statusOf_dbUpdateFileStatus, Option.isSome_map']

/-- The step appends exactly the transport calls of its entry. -/
theorem syncFilesStep_trace (env : SyncEnv) (dt : DestType) (db : DB)
    (tr : List TransportOp) (fe : Option String) (file : FileEntry) :
    (syncFilesStep env dt (db, tr, fe) file).2.1 =
      tr ++ syncOps env dt file.path := by
  unfold syncFilesStep
  simp only [syncFile_eq]
  cases ho : pathOutcome env dt file.path <;> simp [ho]

/-- The error reported after a step: a previously recorded failure wins,
else a failed outcome contributes its wrapped message. -/
theorem syncFilesStep_err (env : SyncEnv) (dt : DestType) (db : DB)
    (tr : List TransportOp) (fe : Option String) (file : FileEntry) :
    (syncFilesStep env dt (db, tr, fe) file).2.2 =
      (match fe with
        | some e => some e
        | none =>
          match pathOutcome env dt file.path with
          | RunOutcome.failed m =>
              some ("failed to sync file " ++ file.path ++ ": " ++ m)
          | _ => none) := by
  unfold syncFilesStep
  simp only [syncFile_eq]
  cases ho : pathOutcome env dt file.path <;> cases fe <;> simp [ho]

/-! ## Run-level lemmas -/

/-- Rows whose id belongs to no processed entry are untouched by the whole
run fold. -/
theorem runFold_frame (env : SyncEnv) (dt : DestType) (files : List FileEntry) :
    ∀ (acc : DB × List TransportOp × Option String) (j : Nat),
      (∀ f ∈ files, j ≠ f.id) →
      statusOf (files.foldl (syncFilesStep env dt) acc).1 j = statusOf acc.1 j ∧
      errorMessageOf (files.foldl (syncFilesStep env dt) acc).1 j =
        errorMessageOf acc.1 j := by
  induction files with
  | nil => intro acc j _; exact ⟨rfl, rfl⟩
  | cons f rest ih =>
      intro acc j h
      obtain ⟨db, tr, fe⟩ := acc
      simp only [List.foldl_cons]
      have hj : j ≠ f.id := h f (by simp)
      have hstep := syncFilesStep_frame env dt db tr fe f j hj
      have hrest := ih (syncFilesStep env dt (db, tr, fe) f) j
        (fun g hg => h g (List.mem_cons_of_mem _ hg))
      exact ⟨hrest.1.trans hstep.1, hrest.2.trans hstep.2⟩

/-- Row presence is preserved by the whole run fold. -/
theorem runFold_isSome (env : SyncEnv) (dt : DestType) (files : List FileEntry) :
    ∀ (acc : DB × List TransportOp × Option String) (j : Nat),
      (statusOf acc.1 j).isSome →
      (statusOf (files.foldl (syncFilesStep env dt) acc).1 j).isSome := by
  induction files with
  | nil => intro acc j h; exact h
  | cons f rest ih =>
      intro acc j h
      obtain ⟨db, tr, fe⟩ := acc
      simp only [List.foldl_cons]
      exact ih _ j (syncFilesStep_isSome env dt db tr fe f j h)

/-- Every processed entry ends the run in the status and with the message
determined by its own outcome, provided entry ids are distinct and each entry
has a row. -/
theorem runFold_self (env : SyncEnv) (dt : DestType) (files : List FileEntry) :
    ∀ (acc : DB × List TransportOp × Option String),
      (files.map (·.id)).Nodup →
      (∀ f ∈ files, (statusOf acc.1 f.id).isSome) →
      ∀ f ∈ files,
        statusOf (files.foldl (syncFilesStep env dt) acc).1 f.id =
          some (outcomeStatus (pathOutcome env dt f.path)) ∧
        errorMessageOf (files.foldl (syncFilesStep env dt) acc).1 f.id =
          some (outcomeMessage (pathOutcome env dt f.path)) := by
  induction files with
  | nil => intro acc _ _ f hf; exact absurd hf (List.not_mem_nil f)
  | cons g rest ih =>
      intro acc hnd hsome f hf
      obtain ⟨db, tr, fe⟩ := acc
      simp only [List.foldl_cons]
      rcases List.mem_cons.mp hf with hfg | hfr
      · subst hfg
        have hset := syncFilesStep_self env dt db tr fe f (hsome f (by simp))
        have hnot : ∀ h ∈ rest, f.id ≠ h.id := by
          intro h hh heq
          have hmem : f.id ∈ rest.map (·.id) := List.mem_map.mpr ⟨h, hh, heq.symm⟩
          simp only [List.map_cons, List.nodup_cons] at hnd
          exact hnd.1 hmem
        have hkeep := runFold_frame env dt rest
          (syncFilesStep env dt (db, tr, fe) f) f.id hnot
        exact ⟨hkeep.1.trans hset.1, hkeep.2.trans hset.2⟩
      · have hnd2 : (rest.map (·.id)).Nodup := by
          simp only [List.map_cons, List.nodup_cons] at hnd
          exact hnd.2
        have hsome2 : ∀ h ∈ rest,
            (statusOf (syncFilesStep env dt (db, tr, fe) g).1 h.id).isSome :=
          fun h hh => syncFilesStep_isSome env dt db tr fe g h.id
            (hsome h (List.mem_cons_of_mem _ hh))
        exact ih _ hnd2 hsome2 f hfr

/-- The run fold reports no failure exactly when no accumulated failure was
present and no processed entry has a failed outcome. -/
theorem runFold_err (env : SyncEnv) (dt : DestType) (files : List FileEntry) :
    ∀ (acc : DB × List TransportOp × Option String),
      ((files.foldl (syncFilesStep env dt) acc).2.2 = none ↔
        (acc.2.2 = none ∧ ∀ f ∈ files,
          (pathOutcome env dt f.path).isFailed = false)) := by
  induction files with
  | nil => intro acc; simp
  | cons g rest ih =>
      intro acc
      obtain ⟨db, tr, fe⟩ := acc
      simp only [List.foldl_cons]
      rw [ih]
      rw [syncFilesStep_err]
      cases fe with
      | some e => simp
      | none =>
          cases ho : pathOutcome env dt g.path <;>
            simp [ho, RunOutcome.isFailed]

/-- The transport trace of the run fold is the accumulated trace followed by
the calls of each processed entry, in order. -/
theorem runFold_trace (env : SyncEnv) (dt : DestType) (files : List FileEntry) :
    ∀ (acc : DB × List TransportOp × Option String),
      (files.foldl (syncFilesStep env dt) acc).2.1 =
        acc.2.1 ++ (files.map (fun f => syncOps env dt f.path)).flatten := by
  induction files with
  | nil => intro acc; simp
  | cons g rest ih =>
      intro acc
      obtain ⟨db, tr, fe⟩ := acc
      simp only [List.foldl_cons]
      rw [ih]
      rw [syncFilesStep_trace]
      simp [List.append_assoc]

/-- Every transport call of one entry refers to that entry's path. -/
theorem opPath_of_mem_syncOps (env : SyncEnv) (dt : DestType) (p : String)
    (op : TransportOp) (h : op ∈ syncOps env dt p) : op.opPath = p := by
  cases dt with
  | minio =>
      cases hs : env.destStatOk p with
      | true =>
          simp [syncOps, hs] at h
          simp [h, TransportOp.opPath]
      | false =>
          cases hg : env.getObjectErr p with
          | some e =>
              simp [syncOps, hs, hg] at h
              rcases h with h | h <;> simp [h, TransportOp.opPath]
          | none =>
              cases hc : env.copyErr p with
              | some e =>
                  simp [syncOps, hs, hg, hc] at h
                  rcases h with h | h | h <;> simp [h, TransportOp.opPath]
              | none =>
                  simp [syncOps, hs, hg, hc] at h
                  rcases h with h | h | h <;> simp [h, TransportOp.opPath]
  | localFs =>
      cases hl : env.localExistsResult p with
      | error e =>
          simp [syncOps, hl] at h
          simp [h, TransportOp.opPath]
      | ok b =>
          cases b with
          | true =>
              simp [syncOps, hl] at h
              simp [h, TransportOp.opPath]
          | false =>
              cases hg : env.getObjectErr p with
              | some e =>
                  simp [syncOps, hl, hg] at h
                  rcases h with h | h <;> simp [h, TransportOp.opPath]
              | none =>
                  cases hc : env.copyErr p with
                  | some e =>
                      simp [syncOps, hl, hg, hc] at h
                      rcases h with h | h | h <;> simp [h, TransportOp.opPath]
                  | none =>
                      simp [syncOps, hl, hg, hc] at h
                      rcases h with h | h | h <;> simp [h, TransportOp.opPath]

/-- When the destination probe reports the object present, the entry's only
transport call is the probe — in particular the source is never fetched. -/
theorem getSource_not_mem_syncOps_of_present (env : SyncEnv) (dt : DestType)
    (p q : String) (h : probeSaysPresent env dt p) :
    TransportOp.getSource q ∉ syncOps env dt p := by
  cases dt with
  | minio =>
      have hs : env.destStatOk p = true := h
      simp [syncOps, hs]
  | localFs =>
      have hl : env.localExistsResult p = Except.ok true := h
      simp [syncOps, hl]

/-- A probe that reports the object present makes the entry's outcome
`existsDest`. -/
theorem pathOutcome_of_present (env : SyncEnv) (dt : DestType) (p : String)
    (h : probeSaysPresent env dt p) :
    pathOutcome env dt p = RunOutcome.existsDest := by
  cases dt with
  | minio =>
      have hs : env.destStatOk p = true := h
      simp [pathOutcome, hs]
  | localFs =>
      have hl : env.localExistsResult p = Except.ok true := h
      simp [pathOutcome, hl]

/-- C3: for an entry of a scheduler run whose path the destination already
holds when probed, the run leaves the entry in status `exists` and performs
no source fetch at all for that path — no bytes are read from the source.
Hypotheses: catalog row ids are distinct and, as the engine's logical
invariant demands, no two fetched entries share a path. -/
theorem syncFiles_exists_skip (env : SyncEnv) (dt : DestType) (db : DB)
    (projectName : String) (e : FileEntry)
    (hid : (db.entries.map (·.id)).Nodup)
    (hpath : ((dbGetPendingFiles db projectName).map (·.path)).Nodup)
    (he : e ∈ dbGetPendingFiles db projectName)
    (hprobe : probeSaysPresent env dt e.path) :
    statusOf (syncFiles env dt db projectName).1 e.id =
      some FileStatus.existsDest ∧
    TransportOp.getSource e.path ∉ (syncFiles env dt db projectName).2.1 := by
  have hsub : List.Sublist (dbGetPendingFiles db projectName) db.entries :=
    List.filter_sublist _
  have hne : ¬((dbGetPendingFiles db projectName).isEmpty = true) := by
    rw [List.isEmpty_iff]
    exact List.ne_nil_of_mem he
  have hrun : syncFiles env dt db projectName =
      (dbGetPendingFiles db projectName).foldl (syncFilesStep env dt)
        (db, [], none) := by
    unfold syncFiles
    simp [hne]
  have hndid : ((dbGetPendingFiles db projectName).map (·.id)).Nodup :=
    List.Nodup.sublist (hsub.map (·.id)) hid
  have hsome : ∀ f ∈ dbGetPendingFiles db projectName,
      (statusOf (db, ([] : List TransportOp),
        (none : Option String)).1 f.id).isSome :=
    fun f hf => statusOf_isSome_of_mem db f (hsub.subset hf)
  have hself := runFold_self env dt (dbGetPendingFiles db projectName)
    (db, [], none) hndid hsome e he
  constructor
  · rw [hrun]
    rw [hself.1, pathOutcome_of_present env dt e.path hprobe]
    rfl
  · rw [hrun, runFold_trace]
    intro hmem
    simp only [List.nil_append] at hmem
    rw [List.mem_flatten] at hmem
    obtain ⟨l, hl, hop⟩ := hmem
    rw [List.mem_map] at hl
    obtain ⟨f, hf, rfl⟩ := hl
    have hpp := opPath_of_mem_syncOps env dt f.path _ hop
    have hpe : e.path = f.path := by
      simpa [TransportOp.opPath] using hpp
    have hef : e = f := List.inj_on_of_nodup_map hpath he hf hpe
    rw [← hef] at hop
    exact getSource_not_mem_syncOps_of_present env dt e.path e.path hprobe hop

/-- Witness for `syncFiles_exists_skip`: in a run over three pending entries
where the destination already holds `b`, entry `b` (id 2) ends as `exists`
and the source is never fetched for path `b`. -/
theorem syncFiles_exists_skip_witness :
    statusOf (syncFiles envOneFailure DestType.minio pendingDb "p").1 2 =
      some FileStatus.existsDest ∧
    TransportOp.getSource "b" ∉
      (syncFiles envOneFailure DestType.minio pendingDb "p").2.1 :=
  syncFiles_exists_skip envOneFailure DestType.minio pendingDb "p"
    ⟨2, "p", "b", 20, "e2", 0, FileStatus.pending, "", 2, 2⟩
    (by decide) (by decide) (by decide) (by rfl)

/-- C8: in any scheduler run, every fetched entry ends in the status and
with the message determined by its own transport outcome — a failing entry is
recorded as `error` with its message while all other entries still reach
`completed` or `exists` — and the run reports success exactly when no entry's
outcome failed (entries that merely ended as `exists` do not fail the run). -/
theorem syncFiles_failure_isolation (env : SyncEnv) (dt : DestType) (db : DB)
    (projectName : String)
    (hid : (db.entries.map (·.id)).Nodup) :
    (∀ f ∈ dbGetPendingFiles db projectName,
      statusOf (syncFiles env dt db projectName).1 f.id =
        some (outcomeStatus (pathOutcome env dt f.path)) ∧
      errorMessageOf (syncFiles env dt db projectName).1 f.id =
        some (outcomeMessage (pathOutcome env dt f.path))) ∧
    ((syncFiles env dt db projectName).2.2 = none ↔
      ∀ f ∈ dbGetPendingFiles db projectName,
        (pathOutcome env dt f.path).isFailed = false) := by
  by_cases hne : (dbGetPendingFiles db projectName).isEmpty = true
  · have hnil : dbGetPendingFiles db projectName = [] := List.isEmpty_iff.mp hne
    constructor
    · intro f hf
      rw [hnil] at hf
      exact absurd hf (List.not_mem_nil f)
    · unfold syncFiles
      rw [hnil]
      simp
  · have hrun : syncFiles env dt db projectName =
        (dbGetPendingFiles db projectName).foldl (syncFilesStep env dt)
          (db, [], none) := by
      unfold syncFiles
      simp [hne]
    have hsub : List.Sublist (dbGetPendingFiles db projectName) db.entries :=
      List.filter_sublist _
    have hndid : ((dbGetPendingFiles db projectName).map (·.id)).Nodup :=
      List.Nodup.sublist (hsub.map (·.id)) hid
    have hsome : ∀ f ∈ dbGetPendingFiles db projectName,
        (statusOf (db, ([] : List TransportOp),
          (none : Option String)).1 f.id).isSome :=
      fun f hf => statusOf_isSome_of_mem db f (hsub.subset hf)
    constructor
    · intro f hf
      rw [hrun]
      exact runFold_self env dt (dbGetPendingFiles db projectName)
        (db, [], none) hndid hsome f hf
    · rw [hrun, runFold_err]
      simp

/-- Witness for `syncFiles_failure_isolation`: the run over entries `a`, `b`,
`c` in which `b` already exists at the destination and the copy of `c` fails
with a permanent error. -/
theorem syncFiles_failure_isolation_witness :
    (∀ f ∈ dbGetPendingFiles pendingDb "p",
      statusOf (syncFiles envOneFailure DestType.minio pendingDb "p").1 f.id =
        some (outcomeStatus (pathOutcome envOneFailure DestType.minio f.path)) ∧
      errorMessageOf (syncFiles envOneFailure DestType.minio pendingDb "p").1
          f.id =
        some (outcomeMessage (pathOutcome envOneFailure DestType.minio f.path))) ∧
    ((syncFiles envOneFailure DestType.minio pendingDb "p").2.2 = none ↔
      ∀ f ∈ dbGetPendingFiles pendingDb "p",
        (pathOutcome envOneFailure DestType.minio f.path).isFailed = false) :=
  syncFiles_failure_isolation envOneFailure DestType.minio pendingDb "p"
    (by decide)

/-- C10: when no catalog entry of the project is `pending` or in `error`,
the scheduler run returns success immediately: it performs no transport call
and the catalog after the run is exactly the catalog before it. -/
theorem syncFiles_no_pending_noop (env : SyncEnv) (dt : DestType) (db : DB)
    (projectName : String)
    (h : ∀ e ∈ db.entries, e.projectName = projectName →
      e.status ≠ FileStatus.pending ∧ e.status ≠ FileStatus.error) :
    syncFiles env dt db projectName = (db, [], none) := by
  have hempty : dbGetPendingFiles db projectName = [] := by
    unfold dbGetPendingFiles
    rw [List.filter_eq_nil_iff]
    intro e hee
    by_cases hp : e.projectName = projectName
    · obtain ⟨h1, h2⟩ := h e hee hp
      simp [hp, h1, h2]
    · simp [hp]
  unfold syncFiles
  rw [hempty]
  rfl

/-- Witness for `syncFiles_no_pending_noop`: a catalog whose entries for the
project are all `completed` or `exists`. -/
theorem syncFiles_no_pending_noop_witness :
    syncFiles envOneFailure DestType.minio allDoneDb "p" =
      (allDoneDb, [], none) :=
  syncFiles_no_pending_noop envOneFailure DestType.minio allDoneDb "p"
    (by decide)

/-! ## Import claims -/

/-- If a predicate finds nothing in an appended list, it finds nothing in
the left part. -/
theorem find?_none_of_append_none {α : Type} (p : α → Bool) (l1 l2 : List α)
    (h : (l1 ++ l2).find? p = none) : l1.find? p = none := by
  rw [List.find?_eq_none] at h ⊢
  exact fun x hx => h x (List.mem_append_left _ hx)

/-- The import loop only ever appends fresh `pending` rows for paths absent
from the catalog it started from; every pre-existing row is carried over
unchanged. -/
theorem importFold_additive (projectName folderPath : String)
    (entries : List MCListEntry) :
    ∀ (db : DB) (log : List DbMutation),
      ∃ new : List FileEntry,
        (entries.foldl (importStep projectName folderPath) (db, log)).1.entries =
          db.entries ++ new ∧
        ∀ r ∈ new, r.status = FileStatus.pending ∧
          dbGetFileByPath db projectName r.path = none := by
  induction entries with
  | nil =>
      intro db log
      exact ⟨[], by simp, by simp⟩
  | cons e rest ih =>
      intro db log
      simp only [List.foldl_cons]
      cases hlook : dbGetFileByPath db projectName
          (importFilePath folderPath e.key) with
      | some x =>
          have hstep : importStep projectName folderPath (db, log) e = (db, log) := by
            unfold importStep
            simp [hlook]
          rw [hstep]
          exact ih db log
      | none =>
          have hstep : importStep projectName folderPath (db, log) e =
              (⟨db.entries ++
                  [⟨db.nextId, projectName, importFilePath folderPath e.key,
                    e.size, e.etag, e.lastModified, FileStatus.pending, "",
                    db.clock + 1, db.clock + 1⟩],
                db.nextId + 1, db.clock + 1⟩,
                log ++ [DbMutation.insertRow
                  ⟨db.nextId, projectName, importFilePath folderPath e.key,
                    e.size, e.etag, e.lastModified, FileStatus.pending, "",
                    db.clock + 1, db.clock + 1⟩]) := by
            unfold importStep dbInsertFileEntry
            simp [hlook]
          rw [hstep]
          obtain ⟨new2, hnew2, hprops⟩ := ih _ _
          refine ⟨⟨db.nextId, projectName, importFilePath folderPath e.key,
              e.size, e.etag, e.lastModified, FileStatus.pending, "",
              db.clock + 1, db.clock + 1⟩ :: new2, ?_, ?_⟩
          · rw [hnew2]
            simp
          · intro r hr
            rcases List.mem_cons.mp hr with hr | hr
            · subst hr
              exact ⟨rfl, hlook⟩
            · obtain ⟨hst, hnone⟩ := hprops r hr
              refine ⟨hst, ?_⟩
              unfold dbGetFileByPath at hnone ⊢
              exact find?_none_of_append_none _ _ _ hnone

/-- C9: importing a listing never edits a row already present — the catalog
after an import is exactly the old rows, unchanged in size, fingerprint and
status (even when the imported record differs), followed by freshly inserted
`pending` rows whose paths were absent from the original catalog. -/
theorem importFileList_additive (db : DB) (projectName folderPath : String)
    (entries : List MCListEntry) :
    ∃ new : List FileEntry,
      (importFileList db projectName folderPath entries).1.entries =
        db.entries ++ new ∧
      ∀ r ∈ new, r.status = FileStatus.pending ∧
        dbGetFileByPath db projectName r.path = none := by
  unfold importFileList
  exact importFold_additive projectName folderPath _ db []

/-- Witness for `importFileList_additive`: importing a record that collides
with the existing `docs/a.txt` entry but reports different size and
fingerprint, together with a new file and a folder record. -/
theorem importFileList_additive_witness :
    ∃ new : List FileEntry,
      (importFileList importDb "p" "docs" importEntries).1.entries =
        importDb.entries ++ new ∧
      ∀ r ∈ new, r.status = FileStatus.pending ∧
        dbGetFileByPath importDb "p" r.path = none :=
  importFileList_additive importDb "p" "docs" importEntries
